import Mathlib

/-!
Verification of the cloud-insight report generator.

This file gives a shallow embedding of the computational core of the
repository (statistics, anomaly detection, period comparison, resampling
and chart-layout policy, date-tick generation, and the per-site server
loop) and proves or refutes the frozen behavioural claims about it.

Modelling conventions:
* Machine floats are modelled as rationals (`ℚ`); the float literals
  `1.1`, `0.1`, `0.001`, `1.5` of the source become `11/10`, `1/10`,
  `1/1000`, `3/2`.
* API timestamps are milliseconds since the (local) epoch, modelled as
  `ℕ` (the API only produces non-negative timestamps).  A Python
  `datetime` is determined by its timestamp, so it is not reified:
  `datetime.date()` becomes the epoch-day index `ts / msPerDay`, and a
  `timedelta.days` between two datetimes becomes flooring division of
  the millisecond difference.
* A pandas DataFrame built by `process_metric_data` is modelled as the
  list of its rows, in order.
* `float('inf')` (which the source assigns when a percent-change
  denominator is zero) is modelled by a dedicated constructor of the
  `Change` type, since ℚ has no infinities.
* pandas `resample(rule).mean()` emits `NaN` rows for empty buckets;
  those rows are ignored both by plotting and by the subsequent
  `min()`/`max()` (which skip NaN), so the model omits empty buckets
  from the resampled sequence altogether.
-/

/-- One row of the metric DataFrame built by `process_metric_data`
(`src/modules/reports/data_processor.py`): a raw API data point
`(timestamp_ms, value)`. -/
structure DataPoint where
  ts : ℕ
  value : ℚ
deriving DecidableEq, Repr

/-- Milliseconds per hour. -/
def msPerHour : ℕ := 3600000

/-- Milliseconds per day. -/
def msPerDay : ℕ := 86400000

/-- `datetime.fromtimestamp(ts/1000).date()` as an epoch-day index. -/
def dateOf (ts : ℕ) : ℕ := ts / msPerDay

/-- `df['timestamp'].min()` over the rows (default 0 on an empty frame,
which the source never queries). -/
def tsMin (pts : List DataPoint) : ℕ := ((pts.map (·.ts)).min?).getD 0

/-- `df['timestamp'].max()` over the rows. -/
def tsMax (pts : List DataPoint) : ℕ := ((pts.map (·.ts)).max?).getD 0

/-- `df['value'].min()` over the rows. -/
def valMin (pts : List DataPoint) : ℚ := ((pts.map (·.value)).min?).getD 0

/-- `df['value'].max()` over the rows. -/
def valMax (pts : List DataPoint) : ℚ := ((pts.map (·.value)).max?).getD 0

/-- pandas `Series.mean()`: arithmetic mean of a list of values. -/
def valsMean (l : List ℚ) : ℚ := l.sum / l.length

/-- The value column `df['value']` of the frame. -/
def valuesOf (pts : List DataPoint) : List ℚ := pts.map (·.value)

/-! ### Grid layout (`create_dashboard` in `src/modules/reports/visualizer.py`,
`create_improved_dashboard` in `src/date_range_report.py`)

`cols = min(3, num_metrics)`, `rows = (num_metrics + cols - 1) // cols`. -/

/-- The subplot grid dimensions `(rows, cols)` computed by the dashboard
builders for `num_metrics` metrics. -/
def grid_dims (num_metrics : ℕ) : ℕ × ℕ :=
  let cols := min 3 num_metrics
  let rows := (num_metrics + cols - 1) / cols
  (rows, cols)

/-! ### Date ticks (`generate_date_ticks` in `src/date_range_report.py`)

Dates are modelled as day indices in `ℤ`; `timedelta(days=7)` is `+ 7`. -/

/-- The `while current < end` loop body of `generate_date_ticks`: starting
from `current`, repeatedly add 7 days, appending each date that does not
pass `endDate`. -/
def date_ticks_loop (current endDate : ℤ) : List ℤ :=
  if current < endDate then
    (if current + 7 ≤ endDate then [current + 7] else []) ++
      date_ticks_loop (current + 7) endDate
  else []
termination_by (endDate - current).toNat
decreasing_by
  omega

/-- `generate_date_ticks(start_date, end_date)`: the start date, then the
weekly cadence dates, then the end date if not already present. -/
def generate_date_ticks (start_date end_date : ℤ) : List ℤ :=
  let date_list := start_date :: date_ticks_loop start_date end_date
  if end_date ∈ date_list then date_list else date_list ++ [end_date]

/-- The plotted X-axis range `ax.set_xlim(start_date, end_date + timedelta(days=1))`
used by `create_improved_dashboard` and `create_individual_metrics`. -/
def x_axis_range (start_date end_date : ℤ) : ℤ × ℤ := (start_date, end_date + 1)

/-! ### Per-site server loop (`run_date_range_report` in
`src/date_range_report.py`, `generate_site_report` in
`src/scheduled_reports.py`)

The fetch call and the chart builders can raise; the loop body is wrapped
in `try/except`, so a raise is modelled as an `Except.error` result of the
fetch oracle, which the loop turns into "skip this server". -/

/-- A configured server (`server.get('id')`, `server.get('name')`). -/
structure ServerConfig where
  id : Option String
  name : Option String
deriving DecidableEq

/-- One metric's fetch result (`{metric, dps}`). -/
structure MetricData where
  metric : String
  dps : List (ℕ × ℚ)
deriving DecidableEq

/-- Whether one iteration of the server loop reaches `server_success += 1`:
the server record must carry an id and a name, the fetch must not raise,
its result must be truthy (non-empty), and at least one returned metric
must have a non-empty `dps` list (the `valid_metrics` filter). -/
def server_processed_ok (fetch : ServerConfig → Except String (List MetricData))
    (server : ServerConfig) : Bool :=
  server.id.isSome && server.name.isSome &&
    match fetch server with
    | .error _ => false
    | .ok result => !result.isEmpty && result.any (fun m => !m.dps.isEmpty)

/-- The `for server in servers` loop: each iteration either completes or is
skipped after its error is logged; `server_success` counts completions. -/
def run_site_servers (fetch : ServerConfig → Except String (List MetricData)) :
    List ServerConfig → ℕ
  | [] => 0
  | server :: rest =>
      (if server_processed_ok fetch server then 1 else 0) + run_site_servers fetch rest

/-- The site success flag `server_success > 0` tested after the loop. -/
def site_success (fetch : ServerConfig → Except String (List MetricData))
    (servers : List ServerConfig) : Bool :=
  decide (0 < run_site_servers fetch servers)

/-! ### Statistics (`calculate_statistics` in
`src/modules/reports/data_processor.py`)

pandas `Series.quantile(q)` with the default `interpolation='linear'`
sorts the values and, with `h = q * (n - 1)`, `i = floor h`, returns
`s[i] + (h - i) * (s[i+1] - s[i])` (the last term vanishing when
`i = n - 1`).  `Series.median()` is `quantile(0.5)`. -/

/-- The sorted value column used by pandas quantile. -/
def sortVals (l : List ℚ) : List ℚ := l.insertionSort (· ≤ ·)

/-- Linear-interpolation quantile of an already-sorted list `s` at
`p ∈ [0,1]`.  When `i + 1` is out of range the second sample defaults to
the first, erasing the interpolation term. -/
def quantileSorted (s : List ℚ) (p : ℚ) : ℚ :=
  let h : ℚ := p * ((s.length : ℚ) - 1)
  let i : ℕ := ⌊h⌋.toNat
  let a : ℚ := s.getD i 0
  let b : ℚ := s.getD (i + 1) a
  a + (h - (i : ℚ)) * (b - a)

/-- `Series.quantile(p)` (linear interpolation) of a value list. -/
def quantile (l : List ℚ) (p : ℚ) : ℚ := quantileSorted (sortVals l) p

/-- The fields of the `stats` dictionary built by `calculate_statistics`
that the claims are about.  (`std`, the time fields and the grouped
day/hour/weekday averages of the source are not needed by any claim;
`std` in particular is a square root, which leaves ℚ.) -/
structure StatsSummary where
  count : ℕ
  min : ℚ
  max : ℚ
  mean : ℚ
  median : ℚ
  percentile_10 : ℚ
  percentile_25 : ℚ
  percentile_75 : ℚ
  percentile_90 : ℚ
  percentile_95 : ℚ
  percentile_99 : ℚ
deriving DecidableEq, Repr

/-- `calculate_statistics(df)`: `None` on an empty frame, otherwise the
descriptive statistics of the value column; each percentile is
`df['value'].quantile(p/100)`. -/
def calculate_statistics (pts : List DataPoint) : Option StatsSummary :=
  if pts.isEmpty then none else
  let vals := valuesOf pts
  some
    { count := pts.length
      min := valMin pts
      max := valMax pts
      mean := valsMean vals
      median := quantile vals (1 / 2)
      percentile_10 := quantile vals (10 / 100)
      percentile_25 := quantile vals (25 / 100)
      percentile_75 := quantile vals (75 / 100)
      percentile_90 := quantile vals (90 / 100)
      percentile_95 := quantile vals (95 / 100)
      percentile_99 := quantile vals (99 / 100) }

/-! ### Anomaly detection (`detect_anomalies` in
`src/modules/reports/data_processor.py`) -/

/-- The `anomalies` dictionary: threshold-warning rows, threshold-critical
rows, and IQR-statistical outlier rows. -/
structure AnomalySet where
  warning : List DataPoint
  critical : List DataPoint
  outliers : List DataPoint
deriving DecidableEq, Repr

/-- `detect_anomalies(df, threshold_warning, threshold_critical)`: `None`
on an empty frame; otherwise each threshold list is the `value >= t`
filter when its threshold is supplied (an empty filter result leaves the
initial `[]` in place, which coincides with the filter), and the outlier
list is the rows outside `[Q1 - 1.5*IQR, Q3 + 1.5*IQR]`. -/
def detect_anomalies (pts : List DataPoint)
    (threshold_warning threshold_critical : Option ℚ) : Option AnomalySet :=
  if pts.isEmpty then none else
  let warning := match threshold_warning with
    | some w => pts.filter (fun p => w ≤ p.value)
    | none => []
  let critical := match threshold_critical with
    | some c => pts.filter (fun p => c ≤ p.value)
    | none => []
  let q1 := quantile (valuesOf pts) (25 / 100)
  let q3 := quantile (valuesOf pts) (75 / 100)
  let iqr := q3 - q1
  let lower_bound := q1 - 3 / 2 * iqr
  let upper_bound := q3 + 3 / 2 * iqr
  let outliers := pts.filter (fun p => p.value < lower_bound ∨ upper_bound < p.value)
  some { warning := warning, critical := critical, outliers := outliers }

/-! ### Period comparison (`compare_time_periods` in
`src/modules/reports/data_processor.py`) -/

/-- Per-period statistics (`mean`, `max`, `min`, `count`; the `std` and
the start/end dates of the source are not needed by any claim). -/
structure PeriodStats where
  mean : ℚ
  max : ℚ
  min : ℚ
  count : ℕ
deriving DecidableEq, Repr

/-- A percent-change value; `posInf` models the `float('inf')` the source
assigns when the previous-period denominator is zero. -/
inductive Change where
  | finite : ℚ → Change
  | posInf : Change
deriving DecidableEq, Repr

/-- The `changes` dictionary of `compare_time_periods`. -/
structure PeriodChanges where
  mean_change : Change
  max_change : Change
  min_change : Change
deriving DecidableEq, Repr

/-- The result dictionary of `compare_time_periods`. -/
structure PeriodComparison where
  current_period : PeriodStats
  previous_period : PeriodStats
  changes : PeriodChanges
deriving DecidableEq, Repr

/-- The per-period statistics block computed for a filtered sub-frame. -/
def periodStats (pts : List DataPoint) : PeriodStats :=
  { mean := valsMean (valuesOf pts)
    max := valMax pts
    min := valMin pts
    count := pts.length }

/-- `(current - previous)/previous * 100 if previous != 0 else float('inf')`. -/
def pct_change (current previous : ℚ) : Change :=
  if previous ≠ 0 then Change.finite ((current - previous) / previous * 100)
  else Change.posInf

/-- `compare_time_periods(df, period_days)`: `None` on an empty frame or
when the calendar-day span `(max_date - min_date).days` is below
`period_days * 2`; otherwise splits the rows at
`mid_date = max_date - period_days` into a current part
(`date > mid_date`) and a previous part (`date <= mid_date`). -/
def compare_time_periods (pts : List DataPoint) (period_days : ℕ) :
    Option PeriodComparison :=
  if pts.isEmpty then none else
  let min_date := dateOf (tsMin pts)
  let max_date := dateOf (tsMax pts)
  let date_range := max_date - min_date
  if date_range < period_days * 2 then none else
  let mid_date := max_date - period_days
  let current_period := pts.filter (fun p => mid_date < dateOf p.ts)
  let previous_period := pts.filter (fun p => dateOf p.ts ≤ mid_date)
  let current_stats := periodStats current_period
  let previous_stats := periodStats previous_period
  some
    { current_period := current_stats
      previous_period := previous_stats
      changes :=
        { mean_change := pct_change current_stats.mean previous_stats.mean
          max_change := pct_change current_stats.max previous_stats.max
          min_change := pct_change current_stats.min previous_stats.min } }

/-! ### Resampling (`create_improved_dashboard` and
`create_individual_metrics` in `src/date_range_report.py`)

`resample('2H'/'6H'/'12H').mean()` buckets the rows into fixed windows
aligned to midnight of the first day; since each of the three widths
divides 24h, the bucket containing timestamp `t` starts at
`t - t % width`. -/

/-- `date_range = (df['datetime'].max() - df['datetime'].min()).days + 1`:
the series span in whole days. -/
def date_range_days (pts : List DataPoint) : ℕ :=
  (tsMax pts - tsMin pts) / msPerDay + 1

/-- The resample rule selection, as a bucket width in milliseconds:
`'2H'` for spans of at most 7 days, `'6H'` up to 31 days, `'12H'` beyond. -/
def resample_rule_ms (days : ℕ) : ℕ :=
  if days ≤ 7 then 2 * msPerHour
  else if days ≤ 31 then 6 * msPerHour
  else 12 * msPerHour

/-- `df['value'].resample(rule).mean()` with bucket width `w`: one
`(bucket_start, mean)` output row per non-empty bucket between the first
and last timestamp (empty buckets give NaN rows, which every consumer
skips; see the NaN note in the file header). -/
def resample_points (pts : List DataPoint) (w : ℕ) : List (ℕ × ℚ) :=
  let b0 := tsMin pts / w
  let b1 := tsMax pts / w
  (List.range (b1 - b0 + 1)).filterMap (fun j =>
    let b := b0 + j
    let window := pts.filter (fun p => b * w ≤ p.ts ∧ p.ts < (b + 1) * w)
    if window.isEmpty then none
    else some (b * w, valsMean (valuesOf window)))

/-- The full resampling pipeline of the chart builders: pick the rule from
the span, then bucket. -/
def resampled_series (pts : List DataPoint) : List (ℕ × ℚ) :=
  resample_points pts (resample_rule_ms (date_range_days pts))

/-! ### Y-axis bounds (`create_improved_dashboard` lines 255-291 and the
identical block in `create_individual_metrics`) -/

/-- The CPU display name the axis policy matches on. -/
def cpuDisplayName : String := "CPU 사용률"

/-- The memory display name the axis policy matches on. -/
def memDisplayName : String := "메모리 사용률"

/-- The `(bottom, top)` Y-axis bounds set by the chart builders for a
metric with the given unit and display name over the raw rows `pts`. -/
def y_axis_bounds (unit metric_name : String) (pts : List DataPoint) : ℚ × ℚ :=
  if unit = "%" then
    if metric_name = cpuDisplayName ∨ metric_name = memDisplayName then
      (0, min 100 (valMax pts * (11 / 10)))
    else (0, 100)
  else
    let rs := resampled_series pts
    if !rs.isEmpty then
      let min_value := ((rs.map (·.2)).min?).getD 0
      let max_value := ((rs.map (·.2)).max?).getD 0
      let data_range := max_value - min_value
      if data_range < 1 / 1000 ∨ min_value = max_value then
        if max_value = 0 then (0, 1)
        else
          let margin := max (max_value * (1 / 10)) (1 / 10)
          (max 0 (min_value - margin), max_value + margin)
      else
        let margin := data_range * (1 / 10)
        (max 0 (min_value - margin), max_value + margin)
    else (0, valMax pts * (11 / 10))

/-! ### Concrete inputs used by witness and counterexample theorems -/

/-- Two data points with values 10 and 20. -/
def twoPointSeries : List DataPoint := [⟨0, 10⟩, ⟨3600000, 20⟩]

/-- The statistics of `twoPointSeries`: with two sorted samples the
linear-interpolation quantile at `p` is `10 + p * 10`. -/
def twoPointStats : StatsSummary :=
  { count := 2, min := 10, max := 20, mean := 15, median := 15
    percentile_10 := 11, percentile_25 := 25 / 2, percentile_75 := 35 / 2
    percentile_90 := 19, percentile_95 := 39 / 2, percentile_99 := 199 / 10 }

/-- A 15-day series: four points of value 0 on days 0-7, then values
40 and 60 on days 10 and 15. -/
def fifteenDaySeries : List DataPoint :=
  [⟨0, 0⟩, ⟨3 * msPerDay, 0⟩, ⟨7 * msPerDay, 0⟩,
   ⟨10 * msPerDay, 40⟩, ⟨15 * msPerDay, 60⟩]

/-- A series whose previous period has mean zero while the current period
has a negative mean: day 0 carries 0, day 14 carries -5. -/
def zeroPrevSeries : List DataPoint := [⟨0, 0⟩, ⟨14 * msPerDay, -5⟩]

/-- The comparison the source computes for `zeroPrevSeries`: the split at
day 7 puts the -5 point alone in the current period and the 0 point alone
in the previous one; every denominator is zero, so every change is
`float('inf')` - positive infinity even though the mean dropped. -/
def zeroPrevComparison : PeriodComparison :=
  { current_period := { mean := -5, max := -5, min := -5, count := 1 }
    previous_period := { mean := 0, max := 0, min := 0, count := 1 }
    changes := { mean_change := Change.posInf, max_change := Change.posInf
                 min_change := Change.posInf } }

/-- A one-day series with both points in the first 2-hour bucket. -/
def oneBucketSeries : List DataPoint := [⟨0, 10⟩, ⟨3600000, 20⟩]

/-- A constant generic series: all values 5.0, three points in one day. -/
def constantFiveSeries : List DataPoint :=
  [⟨0, 5⟩, ⟨3600000, 5⟩, ⟨7200000, 5⟩]

/-- The generic-numeric Y-axis bound formula in the words of the spec,
applied to the min/max of the resampled series: stated separately so the
implementation can be proved to refine it. -/
def specGenericAxisBounds (mn mx : ℚ) : ℚ × ℚ :=
  if mx - mn < 1 / 1000 ∨ mn = mx then
    if mx = 0 then (0, 1)
    else (max 0 (mn - max (mx * (1 / 10)) (1 / 10)), mx + max (mx * (1 / 10)) (1 / 10))
  else (max 0 (mn - (mx - mn) * (1 / 10)), mx + (mx - mn) * (1 / 10))

/-- A constant series for the zero-variance outlier check. -/
def constantSeries : List DataPoint := [⟨0, 42⟩, ⟨1, 42⟩, ⟨2, 42⟩]

/-- The anomaly set of `constantSeries` under thresholds 40/42: both
threshold filters keep every point, the IQR outlier list is empty. -/
def constAnomalies : AnomalySet :=
  { warning := constantSeries, critical := constantSeries, outliers := [] }

/-- A fetch oracle that raises for the server named "bad". -/
def demoFetch : ServerConfig → Except String (List MetricData) :=
  fun s =>
    if s.name = some "bad" then Except.error "boom"
    else Except.ok [⟨"cpu", [(0, 1)]⟩]

/-- A good server, a raising server, another good server. -/
def demoServers : List ServerConfig :=
  [⟨some "1", some "alpha"⟩, ⟨some "2", some "bad"⟩, ⟨some "3", some "beta"⟩]

/-! ## Helper lemmas -/

theorem list_min?_spec {α : Type} [LinearOrder α] {l : List α} {a : α}
    (h : l.min? = some a) : a ∈ l ∧ ∀ b ∈ l, a ≤ b := by
  haveI : Std.Antisymm (fun x1 x2 : α => x1 ≤ x2) :=
    ⟨fun h1 h2 => le_antisymm h1 h2⟩
  rw [List.min?_eq_some_iff (fun x => le_refl x) (fun x y => min_choice x y)
    (fun x y z => le_min_iff)] at h
  exact h

theorem list_max?_spec {α : Type} [LinearOrder α] {l : List α} {a : α}
    (h : l.max? = some a) : a ∈ l ∧ ∀ b ∈ l, b ≤ a := by
  haveI : Std.Antisymm (fun x1 x2 : α => x1 ≤ x2) :=
    ⟨fun h1 h2 => le_antisymm h1 h2⟩
  rw [List.max?_eq_some_iff (fun x => le_refl x) (fun x y => max_choice x y)
    (fun x y z => max_le_iff)] at h
  exact h

theorem list_min?_isSome {α : Type} [Min α] {l : List α} (hl : l ≠ []) :
    ∃ a, l.min? = some a := by
  cases hm : l.min? with
  | none => exact absurd (List.min?_eq_none_iff.mp hm) hl
  | some a => exact ⟨a, rfl⟩

theorem list_max?_isSome {α : Type} [Max α] {l : List α} (hl : l ≠ []) :
    ∃ a, l.max? = some a := by
  cases hm : l.max? with
  | none => exact absurd (List.max?_eq_none_iff.mp hm) hl
  | some a => exact ⟨a, rfl⟩

theorem min?_getD_spec {α : Type} [LinearOrder α] {l : List α} (hl : l ≠ []) (d : α) :
    l.min?.getD d ∈ l ∧ ∀ b ∈ l, l.min?.getD d ≤ b := by
  obtain ⟨a, ha⟩ := list_min?_isSome hl
  rw [ha]
  exact list_min?_spec ha

theorem max?_getD_spec {α : Type} [LinearOrder α] {l : List α} (hl : l ≠ []) (d : α) :
    l.max?.getD d ∈ l ∧ ∀ b ∈ l, b ≤ l.max?.getD d := by
  obtain ⟨a, ha⟩ := list_max?_isSome hl
  rw [ha]
  exact list_max?_spec ha

/-- `tsMin` is attained by some point of a non-empty series and is a lower
bound of all timestamps. -/
theorem tsMin_spec {pts : List DataPoint} (h : pts ≠ []) :
    (∃ p ∈ pts, p.ts = tsMin pts) ∧ ∀ p ∈ pts, tsMin pts ≤ p.ts := by
  have hm : pts.map (·.ts) ≠ [] := by simpa using h
  obtain ⟨hmem, hle⟩ := min?_getD_spec hm 0
  constructor
  · obtain ⟨p, hp, hpe⟩ := List.mem_map.mp hmem
    exact ⟨p, hp, hpe⟩
  · exact fun p hp => hle _ (List.mem_map_of_mem _ hp)

/-- `tsMax` is attained by some point of a non-empty series and is an
upper bound of all timestamps. -/
theorem tsMax_spec {pts : List DataPoint} (h : pts ≠ []) :
    (∃ p ∈ pts, p.ts = tsMax pts) ∧ ∀ p ∈ pts, p.ts ≤ tsMax pts := by
  have hm : pts.map (·.ts) ≠ [] := by simpa using h
  obtain ⟨hmem, hle⟩ := max?_getD_spec hm 0
  constructor
  · obtain ⟨p, hp, hpe⟩ := List.mem_map.mp hmem
    exact ⟨p, hp, hpe⟩
  · exact fun p hp => hle _ (List.mem_map_of_mem _ hp)

/-! ## Claim theorems -/

/-- Claim C10: for every non-empty metric list of length `n`, the grid
dimensions `cols = min(3, n)` and `rows = ceil(n / cols)` satisfy
`rows * cols ≥ n`, so the guard skipping metrics whose index reaches
`rows * cols` is never taken and every metric gets a subplot slot. -/
theorem C10_grid_covers_all_metrics (n : ℕ) (hn : 1 ≤ n) :
    n ≤ (grid_dims n).1 * (grid_dims n).2 ∧
    ∀ i, i < n → i < (grid_dims n).1 * (grid_dims n).2 := by
  have key : n ≤ (grid_dims n).1 * (grid_dims n).2 := by
    rcases Nat.lt_or_ge n 3 with h3 | h3
    · interval_cases n <;> decide
    · have hc : min 3 n = 3 := min_eq_left h3
      simp only [grid_dims, hc]
      have hdm := Nat.div_add_mod (n + 3 - 1) 3
      have hlt : (n + 3 - 1) % 3 < 3 := Nat.mod_lt _ (by norm_num)
      omega
  exact ⟨key, fun i hi => lt_of_lt_of_le hi key⟩

theorem C10_witness :
    1 ≤ 7 ∧ (7 ≤ (grid_dims 7).1 * (grid_dims 7).2 ∧
      ∀ i, i < 7 → i < (grid_dims 7).1 * (grid_dims 7).2) :=
  ⟨by decide, C10_grid_covers_all_metrics 7 (by decide)⟩

/-- Claim C6: for a metric with unit `"%"`, the Y-axis is `[0, min(100,
max_raw * 1.1)]` when the display name is the CPU or memory one, and
exactly `[0, 100]` otherwise, regardless of the data. -/
theorem C6_percent_axis_policy (unit metric_name : String) (pts : List DataPoint)
    (hu : unit = "%") :
    ((metric_name = cpuDisplayName ∨ metric_name = memDisplayName) →
      y_axis_bounds unit metric_name pts = (0, min 100 (valMax pts * (11 / 10)))) ∧
    (¬(metric_name = cpuDisplayName ∨ metric_name = memDisplayName) →
      y_axis_bounds unit metric_name pts = (0, 100)) := by
  subst hu
  constructor <;> intro hname
  · simp [y_axis_bounds, hname]
  · simp [y_axis_bounds, hname]

theorem C6_witness :
    y_axis_bounds "%" cpuDisplayName constantFiveSeries =
      (0, min 100 (valMax constantFiveSeries * (11 / 10))) ∧
    y_axis_bounds "%" "Conn" constantFiveSeries = (0, 100) :=
  ⟨(C6_percent_axis_policy "%" cpuDisplayName constantFiveSeries rfl).1 (Or.inl rfl),
   (C6_percent_axis_policy "%" "Conn" constantFiveSeries rfl).2 (by decide)⟩

/-- Claim C9: in the per-site server loop, a fetch error for one server
never affects the others: the success count is exactly the number of
servers that individually process successfully, the site success flag is
true exactly when at least one server succeeds, and deleting a raising
server from the list leaves the count unchanged. -/
theorem C9_server_loop_isolation
    (fetch : ServerConfig → Except String (List MetricData))
    (servers : List ServerConfig) :
    run_site_servers fetch servers = (servers.filter (server_processed_ok fetch)).length ∧
    (site_success fetch servers = true ↔
      ∃ s ∈ servers, server_processed_ok fetch s = true) ∧
    (∀ bad pre post, (∃ e, fetch bad = Except.error e) →
      run_site_servers fetch (pre ++ bad :: post) =
        run_site_servers fetch (pre ++ post)) := by
  have count_eq : ∀ l : List ServerConfig,
      run_site_servers fetch l = (l.filter (server_processed_ok fetch)).length := by
    intro l
    induction l with
    | nil => rfl
    | cons s rest ih =>
        by_cases hs : server_processed_ok fetch s
        · simp [run_site_servers, List.filter_cons, hs, ih, Nat.add_comm]
        · simp [run_site_servers, List.filter_cons, hs, ih]
  refine ⟨count_eq servers, ?_, ?_⟩
  · rw [site_success, decide_eq_true_iff, count_eq, List.length_pos]
    constructor
    · intro hne
      obtain ⟨s, hs⟩ := List.exists_mem_of_ne_nil _ hne
      exact ⟨s, (List.mem_filter.mp hs).1, (List.mem_filter.mp hs).2⟩
    · rintro ⟨s, hs, hok⟩ hnil
      exact (List.filter_eq_nil_iff.mp hnil) s hs (by simp [hok])
  · rintro bad pre post ⟨e, he⟩
    have hbad : server_processed_ok fetch bad = false := by
      simp [server_processed_ok, he]
    rw [count_eq, count_eq, List.filter_append, List.filter_append,
      List.filter_cons, hbad]
    simp

theorem C9_witness :
    (∃ e, demoFetch ⟨some "2", some "bad"⟩ = Except.error e) ∧
    run_site_servers demoFetch
        ([⟨some "1", some "alpha"⟩] ++ ⟨some "2", some "bad"⟩ :: [⟨some "3", some "beta"⟩]) =
      run_site_servers demoFetch ([⟨some "1", some "alpha"⟩] ++ [⟨some "3", some "beta"⟩]) ∧
    site_success demoFetch demoServers = true :=
  ⟨⟨"boom", by simp [demoFetch]⟩,
   (C9_server_loop_isolation demoFetch demoServers).2.2 ⟨some "2", some "bad"⟩
     [⟨some "1", some "alpha"⟩] [⟨some "3", some "beta"⟩] ⟨"boom", by simp [demoFetch]⟩,
   (C9_server_loop_isolation demoFetch demoServers).2.1.mpr
     ⟨⟨some "1", some "alpha"⟩, by decide, by decide⟩⟩

/-- Membership in the weekly-cadence loop output: exactly the dates
`current + 7k` (`k ≥ 1`) that do not pass the end date. -/
theorem mem_date_ticks_loop (current endDate d : ℤ) :
    d ∈ date_ticks_loop current endDate ↔
      ∃ k : ℤ, 1 ≤ k ∧ d = current + 7 * k ∧ d ≤ endDate := by
  induction current, endDate using date_ticks_loop.induct with
  | case1 current endDate hlt ih =>
      rw [date_ticks_loop, if_pos hlt]
      constructor
      · intro hd
        rcases List.mem_append.mp hd with h1 | h2
        · by_cases h7 : current + 7 ≤ endDate
          · rw [if_pos h7] at h1
            simp only [List.mem_singleton] at h1
            exact ⟨1, by omega, by omega, by omega⟩
          · rw [if_neg h7] at h1
            simp at h1
        · rcases ih.mp h2 with ⟨k, hk1, hk2, hk3⟩
          exact ⟨k + 1, by omega, by omega, hk3⟩
      · rintro ⟨k, hk1, hk2, hk3⟩
        apply List.mem_append.mpr
        by_cases hk : k = 1
        · subst hk
          left
          rw [if_pos (by omega)]
          simp only [List.mem_singleton]
          omega
        · right
          exact ih.mpr ⟨k - 1, by omega, by omega, hk3⟩
  | case2 current endDate hlt =>
      rw [date_ticks_loop, if_neg hlt]
      simp only [List.not_mem_nil, false_iff, not_exists]
      rintro k ⟨hk1, hk2, hk3⟩
      omega

/-- The tick list headed by its start date is strictly increasing. -/
theorem sorted_date_ticks_loop (current endDate : ℤ) :
    (current :: date_ticks_loop current endDate).Sorted (· < ·) := by
  induction current, endDate using date_ticks_loop.induct with
  | case1 current endDate hlt ih =>
      rw [date_ticks_loop, if_pos hlt]
      by_cases h7 : current + 7 ≤ endDate
      · rw [if_pos h7]
        simp only [List.singleton_append]
        refine List.sorted_cons.mpr ⟨?_, ih⟩
        intro b hb
        rcases List.mem_cons.mp hb with rfl | hb2
        · omega
        · rcases (mem_date_ticks_loop _ _ _).mp hb2 with ⟨k, hk1, hk2, _⟩
          omega
      · rw [if_neg h7]
        have hempty : date_ticks_loop (current + 7) endDate = [] := by
          rw [date_ticks_loop, if_neg (by omega)]
        simp [hempty]
  | case2 current endDate hlt =>
      rw [date_ticks_loop, if_neg hlt]
      simp

/-- The last element named by `getLast?` is a member of the list. -/
theorem getLast?_mem_list {α : Type} {l : List α} {b : α}
    (hb : l.getLast? = some b) : b ∈ l := by
  cases l with
  | nil => simp at hb
  | cons x xs =>
      rw [List.getLast?_eq_getLast _ (by simp)] at hb
      exact Option.some.inj hb ▸ List.getLast_mem _

/-- In a `≤`-sorted list every member is at most the last element. -/
theorem sorted_le_getLast? {l : List ℤ} (hs : l.Sorted (· ≤ ·)) {a b : ℤ}
    (ha : a ∈ l) (hb : l.getLast? = some b) : a ≤ b := by
  induction l with
  | nil => simp at ha
  | cons x xs ih =>
      rcases List.sorted_cons.mp hs with ⟨hx, hxs⟩
      cases xs with
      | nil =>
          simp only [List.mem_singleton] at ha
          simp only [List.getLast?_singleton, Option.some.injEq] at hb
          omega
      | cons y ys =>
          rw [List.getLast?_cons_cons] at hb
          rcases List.mem_cons.mp ha with rfl | ha2
          · exact le_trans (hx _ (getLast?_mem_list hb)) (le_refl _)
          · exact ih hxs ha2 hb

/-- Claim C8: for `start ≤ end`, `generate_date_ticks` returns a list that
begins with the start date, ends with the end date, and whose members are
exactly the start date, the end date, and the weekly-cadence dates
`start + 7k` (`k ≥ 1`) not exceeding the end date; the plotted X-axis
range is `[start, end + 1 day]`. -/
theorem C8_date_tick_policy (start_date end_date : ℤ) (h : start_date ≤ end_date) :
    (generate_date_ticks start_date end_date).head? = some start_date ∧
    (generate_date_ticks start_date end_date).getLast? = some end_date ∧
    (∀ d, d ∈ generate_date_ticks start_date end_date ↔
      d = start_date ∨ d = end_date ∨
        ∃ k : ℤ, 1 ≤ k ∧ d = start_date + 7 * k ∧ d ≤ end_date) ∧
    x_axis_range start_date end_date = (start_date, end_date + 1) := by
  have hmem_base : ∀ d, d ∈ start_date :: date_ticks_loop start_date end_date ↔
      d = start_date ∨ ∃ k : ℤ, 1 ≤ k ∧ d = start_date + 7 * k ∧ d ≤ end_date := by
    intro d
    rw [List.mem_cons, mem_date_ticks_loop]
  by_cases hmem : end_date ∈ start_date :: date_ticks_loop start_date end_date
  · have hgen : generate_date_ticks start_date end_date =
        start_date :: date_ticks_loop start_date end_date := by
      rw [generate_date_ticks, if_pos hmem]
    refine ⟨by rw [hgen]; rfl, ?_, ?_, rfl⟩
    · rw [hgen]
      have hne : start_date :: date_ticks_loop start_date end_date ≠ [] := by simp
      rw [List.getLast?_eq_getLast _ hne]
      have hlast_mem := List.getLast_mem hne
      have hsorted_le : (start_date :: date_ticks_loop start_date end_date).Sorted (· ≤ ·) :=
        (sorted_date_ticks_loop start_date end_date).le_of_lt
      have h1 : end_date ≤ (start_date :: date_ticks_loop start_date end_date).getLast hne :=
        sorted_le_getLast? hsorted_le hmem (List.getLast?_eq_getLast _ hne)
      have h2 : (start_date :: date_ticks_loop start_date end_date).getLast hne ≤ end_date := by
        rcases (hmem_base _).mp hlast_mem with heq | ⟨k, hk1, hk2, hk3⟩
        · omega
        · exact hk3
      have : (start_date :: date_ticks_loop start_date end_date).getLast hne = end_date := by
        omega
      rw [this]
    · intro d
      rw [hgen, hmem_base d]
      constructor
      · rintro (rfl | hk)
        · exact Or.inl rfl
        · exact Or.inr (Or.inr hk)
      · rintro (rfl | hd | hk)
        · exact Or.inl rfl
        · rw [hd]
          exact (hmem_base end_date).mp hmem
        · exact Or.inr hk
  · have hgen : generate_date_ticks start_date end_date =
        (start_date :: date_ticks_loop start_date end_date) ++ [end_date] := by
      rw [generate_date_ticks, if_neg hmem]
    refine ⟨by rw [hgen]; rfl, ?_, ?_, rfl⟩
    · rw [hgen, List.getLast?_concat]
    · intro d
      rw [hgen, List.mem_append, hmem_base d]
      constructor
      · rintro ((rfl | hk) | hd)
        · exact Or.inl rfl
        · exact Or.inr (Or.inr hk)
        · simp only [List.mem_singleton] at hd
          exact Or.inr (Or.inl hd)
      · rintro (rfl | rfl | hk)
        · exact Or.inl (Or.inl rfl)
        · exact Or.inr (by simp)
        · exact Or.inl (Or.inr hk)

theorem C8_witness :
    (generate_date_ticks 0 10).head? = some 0 ∧
    (generate_date_ticks 0 10).getLast? = some 10 ∧
    (∀ d, d ∈ generate_date_ticks 0 10 ↔
      d = 0 ∨ d = 10 ∨ ∃ k : ℤ, 1 ≤ k ∧ d = 0 + 7 * k ∧ d ≤ 10) ∧
    x_axis_range 0 10 = (0, 11) :=
  C8_date_tick_policy 0 10 (by decide)

/-- Splitting a list of points at a date boundary partitions it: the
strict-greater part and the at-most part together count every point. -/
theorem filter_date_partition (pts : List DataPoint) (mid : ℕ) :
    (pts.filter (fun p => mid < dateOf p.ts)).length +
      (pts.filter (fun p => dateOf p.ts ≤ mid)).length = pts.length := by
  induction pts with
  | nil => rfl
  | cons x xs ih =>
      by_cases hx : mid < dateOf x.ts
      · have hx2 : ¬ dateOf x.ts ≤ mid := by omega
        simp only [List.filter_cons, decide_eq_true_eq, hx, if_true, hx2, if_false,
          List.length_cons]
        omega
      · have hx2 : dateOf x.ts ≤ mid := by omega
        simp only [List.filter_cons, decide_eq_true_eq, hx, if_false, hx2, if_true,
          List.length_cons]
        omega

/-- Claim C3: with `period_days = 7`, `compare_time_periods` on a
non-empty series is absent exactly when the calendar-day span is below
14; otherwise it splits the points at `mid = max_date - 7` into a current
part (`date > mid`) and a previous part (`date ≤ mid`), whose counts sum
to the total point count. -/
theorem C3_period_comparison_split (pts : List DataPoint) (hne : pts ≠ []) :
    (compare_time_periods pts 7 = none ↔
      dateOf (tsMax pts) - dateOf (tsMin pts) < 2 * 7) ∧
    ∀ pc, compare_time_periods pts 7 = some pc →
      pc.current_period.count =
        (pts.filter (fun p => dateOf (tsMax pts) - 7 < dateOf p.ts)).length ∧
      pc.previous_period.count =
        (pts.filter (fun p => dateOf p.ts ≤ dateOf (tsMax pts) - 7)).length ∧
      pc.current_period.count + pc.previous_period.count = pts.length := by
  have hie : pts.isEmpty = false := by
    cases pts with
    | nil => exact absurd rfl hne
    | cons x xs => rfl
  rw [compare_time_periods, hie]
  simp only [Bool.false_eq_true, if_false]
  by_cases hgate : dateOf (tsMax pts) - dateOf (tsMin pts) < 7 * 2
  · rw [if_pos hgate]
    refine ⟨⟨fun _ => by omega, fun _ => rfl⟩, ?_⟩
    intro pc hpc
    exact absurd hpc (by simp)
  · rw [if_neg hgate]
    refine ⟨⟨fun h => absurd h (by simp), fun h => absurd h (by omega)⟩, ?_⟩
    intro pc hpc
    rw [Option.some.injEq] at hpc
    subst hpc
    exact ⟨rfl, rfl, filter_date_partition pts (dateOf (tsMax pts) - 7)⟩

theorem C3_witness :
    (compare_time_periods fifteenDaySeries 7 = none ↔
      dateOf (tsMax fifteenDaySeries) - dateOf (tsMin fifteenDaySeries) < 2 * 7) ∧
    ∀ pc, compare_time_periods fifteenDaySeries 7 = some pc →
      pc.current_period.count =
        (fifteenDaySeries.filter
          (fun p => dateOf (tsMax fifteenDaySeries) - 7 < dateOf p.ts)).length ∧
      pc.previous_period.count =
        (fifteenDaySeries.filter
          (fun p => dateOf p.ts ≤ dateOf (tsMax fifteenDaySeries) - 7)).length ∧
      pc.current_period.count + pc.previous_period.count = fifteenDaySeries.length :=
  C3_period_comparison_split fifteenDaySeries (by decide)

/-- Claim C5 (amended): the percent change of mean, max and min is
`(current - previous)/previous * 100` when the previous-period value is
non-zero, and `float('inf')` - positive infinity regardless of the sign
of the numerator - when the previous-period value is zero. -/
theorem C5_percent_change_amended (pts : List DataPoint) (pc : PeriodComparison)
    (h : compare_time_periods pts 7 = some pc) :
    (pc.previous_period.mean ≠ 0 → pc.changes.mean_change = Change.finite
      ((pc.current_period.mean - pc.previous_period.mean) / pc.previous_period.mean * 100)) ∧
    (pc.previous_period.mean = 0 → pc.changes.mean_change = Change.posInf) ∧
    (pc.previous_period.max ≠ 0 → pc.changes.max_change = Change.finite
      ((pc.current_period.max - pc.previous_period.max) / pc.previous_period.max * 100)) ∧
    (pc.previous_period.max = 0 → pc.changes.max_change = Change.posInf) ∧
    (pc.previous_period.min ≠ 0 → pc.changes.min_change = Change.finite
      ((pc.current_period.min - pc.previous_period.min) / pc.previous_period.min * 100)) ∧
    (pc.previous_period.min = 0 → pc.changes.min_change = Change.posInf) := by
  rw [compare_time_periods] at h
  by_cases hie : pts.isEmpty
  · rw [if_pos hie] at h
    exact absurd h (by simp)
  · rw [if_neg hie] at h
    by_cases hgate : dateOf (tsMax pts) - dateOf (tsMin pts) < 7 * 2
    · rw [if_pos hgate] at h
      exact absurd h (by simp)
    · rw [if_neg hgate] at h
      rw [Option.some.injEq] at h
      subst h
      refine ⟨?_, ?_, ?_, ?_, ?_, ?_⟩ <;> intro hprev <;>
        dsimp only at hprev ⊢ <;> simp [pct_change, hprev]

/-- Evaluation of the period comparison on `zeroPrevSeries`. -/
theorem zeroPrev_eval :
    compare_time_periods zeroPrevSeries 7 = some zeroPrevComparison := by
  norm_num [compare_time_periods, zeroPrevSeries, zeroPrevComparison, tsMin, tsMax,
    dateOf, msPerDay, periodStats, valsMean, valuesOf, valMin, valMax, pct_change,
    List.filter, List.min?, List.max?, List.foldl]

/-- Counterexample to claim C5 as stated: on `zeroPrevSeries` the
previous-period mean is zero and the numerator `current - previous` is
negative, yet the source produces `float('inf')` (positive infinity),
not a negative infinity as the IEEE sign convention would demand. -/
theorem C5_counterexample :
    compare_time_periods zeroPrevSeries 7 = some zeroPrevComparison ∧
    zeroPrevComparison.previous_period.mean = 0 ∧
    zeroPrevComparison.current_period.mean - zeroPrevComparison.previous_period.mean < 0 ∧
    zeroPrevComparison.changes.mean_change = Change.posInf :=
  ⟨zeroPrev_eval, rfl, by norm_num [zeroPrevComparison], rfl⟩

theorem C5_witness :
    (zeroPrevComparison.previous_period.mean ≠ 0 →
      zeroPrevComparison.changes.mean_change = Change.finite
        ((zeroPrevComparison.current_period.mean - zeroPrevComparison.previous_period.mean) /
          zeroPrevComparison.previous_period.mean * 100)) ∧
    (zeroPrevComparison.previous_period.mean = 0 →
      zeroPrevComparison.changes.mean_change = Change.posInf) ∧
    (zeroPrevComparison.previous_period.max ≠ 0 →
      zeroPrevComparison.changes.max_change = Change.finite
        ((zeroPrevComparison.current_period.max - zeroPrevComparison.previous_period.max) /
          zeroPrevComparison.previous_period.max * 100)) ∧
    (zeroPrevComparison.previous_period.max = 0 →
      zeroPrevComparison.changes.max_change = Change.posInf) ∧
    (zeroPrevComparison.previous_period.min ≠ 0 →
      zeroPrevComparison.changes.min_change = Change.finite
        ((zeroPrevComparison.current_period.min - zeroPrevComparison.previous_period.min) /
          zeroPrevComparison.previous_period.min * 100)) ∧
    (zeroPrevComparison.previous_period.min = 0 →
      zeroPrevComparison.changes.min_change = Change.posInf) :=
  C5_percent_change_amended zeroPrevSeries zeroPrevComparison zeroPrev_eval

theorem lt_succ_div_mul (a w : ℕ) (hw : 0 < w) : a < (a / w + 1) * w := by
  have h2 := Nat.mod_lt a hw
  calc a = w * (a / w) + a % w := (Nat.div_add_mod a w).symm
    _ < w * (a / w) + w := Nat.add_lt_add_left h2 _
    _ = (a / w + 1) * w := by ring

/-- The resample rule is always a positive width. -/
theorem resample_rule_pos (days : ℕ) : 0 < resample_rule_ms days := by
  rw [resample_rule_ms]
  split
  · norm_num [msPerHour]
  · split <;> norm_num [msPerHour]

/-- Every row of the bucketed output is a bucket start together with the
mean of the non-empty set of points falling in that bucket. -/
theorem mem_resample_points {pts : List DataPoint} {w : ℕ} {t : ℕ} {v : ℚ}
    (h : (t, v) ∈ resample_points pts w) :
    ∃ b, t = b * w ∧
      pts.filter (fun p => b * w ≤ p.ts ∧ p.ts < (b + 1) * w) ≠ [] ∧
      v = valsMean (valuesOf (pts.filter (fun p => b * w ≤ p.ts ∧ p.ts < (b + 1) * w))) := by
  rw [resample_points] at h
  obtain ⟨j, _, hj⟩ := List.mem_filterMap.mp h
  dsimp only at hj
  by_cases hempty :
      (pts.filter (fun p => (tsMin pts / w + j) * w ≤ p.ts ∧
        p.ts < (tsMin pts / w + j + 1) * w)).isEmpty
  · rw [if_pos hempty] at hj
    exact absurd hj (by simp)
  · rw [if_neg hempty] at hj
    rw [Option.some.injEq, Prod.mk.injEq] at hj
    obtain ⟨ht, hv⟩ := hj
    refine ⟨tsMin pts / w + j, ht.symm, ?_, hv.symm⟩
    intro hnil
    exact hempty (by rw [hnil]; rfl)

/-- A non-empty series resamples to a non-empty bucketed sequence: the
bucket of the earliest point is always produced. -/
theorem resample_points_ne_nil {pts : List DataPoint} (hne : pts ≠ []) {w : ℕ}
    (hw : 0 < w) : resample_points pts w ≠ [] := by
  obtain ⟨⟨p0, hp0, hp0ts⟩, _⟩ := tsMin_spec hne
  intro hnil
  rw [resample_points, List.filterMap_eq_nil_iff] at hnil
  have h0 : (0 : ℕ) ∈ List.range (tsMax pts / w - tsMin pts / w + 1) :=
    List.mem_range.mpr (by omega)
  have hthis := hnil 0 h0
  dsimp only at hthis
  have hmem : p0 ∈ pts.filter (fun p => (tsMin pts / w + 0) * w ≤ p.ts ∧
      p.ts < (tsMin pts / w + 0 + 1) * w) := by
    refine List.mem_filter.mpr ⟨hp0, ?_⟩
    rw [decide_eq_true_eq, hp0ts, Nat.add_zero]
    exact ⟨Nat.div_mul_le_self _ _, lt_succ_div_mul _ _ hw⟩
  have hfe : ¬ (pts.filter (fun p => (tsMin pts / w + 0) * w ≤ p.ts ∧
      p.ts < (tsMin pts / w + 0 + 1) * w)).isEmpty = true := by
    rw [List.isEmpty_iff]
    exact List.ne_nil_of_mem hmem
  rw [if_neg hfe] at hthis
  exact absurd hthis (by simp)

/-- Claim C2: the bucket width is chosen from the span in whole days
(`(max - min).days + 1`): at most 7 days gives 2-hour buckets, at most 31
days 6-hour buckets, more 12-hour buckets; every resampled row is the
arithmetic mean of the non-empty set of points in its bucket, and an
empty bucket produces no row. -/
theorem C2_resampling_policy (pts : List DataPoint) (_hne : pts ≠ []) :
    (date_range_days pts ≤ 7 →
      resample_rule_ms (date_range_days pts) = 2 * msPerHour) ∧
    (7 < date_range_days pts → date_range_days pts ≤ 31 →
      resample_rule_ms (date_range_days pts) = 6 * msPerHour) ∧
    (31 < date_range_days pts →
      resample_rule_ms (date_range_days pts) = 12 * msPerHour) ∧
    (∀ t v, (t, v) ∈ resampled_series pts →
      ∃ b, t = b * resample_rule_ms (date_range_days pts) ∧
        pts.filter (fun p => b * resample_rule_ms (date_range_days pts) ≤ p.ts ∧
          p.ts < (b + 1) * resample_rule_ms (date_range_days pts)) ≠ [] ∧
        v = valsMean (valuesOf (pts.filter
          (fun p => b * resample_rule_ms (date_range_days pts) ≤ p.ts ∧
            p.ts < (b + 1) * resample_rule_ms (date_range_days pts))))) ∧
    (∀ b v, pts.filter (fun p => b * resample_rule_ms (date_range_days pts) ≤ p.ts ∧
        p.ts < (b + 1) * resample_rule_ms (date_range_days pts)) = [] →
      (b * resample_rule_ms (date_range_days pts), v) ∉ resampled_series pts) := by
  refine ⟨?_, ?_, ?_, ?_, ?_⟩
  · intro h
    rw [resample_rule_ms, if_pos h]
  · intro h1 h2
    rw [resample_rule_ms, if_neg (by omega), if_pos h2]
  · intro h
    rw [resample_rule_ms, if_neg (by omega), if_neg (by omega)]
  · intro t v hmem
    rw [resampled_series] at hmem
    exact mem_resample_points hmem
  · intro b v hempty hmem
    rw [resampled_series] at hmem
    obtain ⟨b', hb', hne', _⟩ := mem_resample_points hmem
    have hw := resample_rule_pos (date_range_days pts)
    have : b' = b := Nat.eq_of_mul_eq_mul_right hw hb'.symm
    exact hne' (this ▸ hempty)

/-- Evaluation of the resampling pipeline on `oneBucketSeries`: a one-day
span selects 2-hour buckets, and the single bucket holding the values 10
and 20 yields exactly 15. -/
theorem oneBucket_eval : resampled_series oneBucketSeries = [(0, 15)] := by
  norm_num [resampled_series, resample_points, resample_rule_ms, date_range_days,
    tsMin, tsMax, msPerDay, msPerHour, oneBucketSeries, valsMean, valuesOf,
    List.filterMap, List.range, List.filter, List.min?, List.max?]

theorem C2_witness :
    resample_rule_ms (date_range_days oneBucketSeries) = 2 * msPerHour ∧
    resampled_series oneBucketSeries = [(0, 15)] ∧
    resample_rule_ms 5 = 2 * msPerHour ∧
    resample_rule_ms 20 = 6 * msPerHour ∧
    resample_rule_ms 60 = 12 * msPerHour :=
  ⟨(C2_resampling_policy oneBucketSeries (by decide)).1 (by decide),
   oneBucket_eval, by decide, by decide, by decide⟩

/-- Claim C7: for a non-percent metric over a non-empty series, the
resampled series is never empty (so the raw-series fallback branch is
unreachable), and the Y-axis bounds are the margin formula of the spec
applied to the min/max of the resampled values; in particular a constant
generic series of value 5.0 gets bounds [4.5, 5.5] (see the witness). -/
theorem C7_generic_axis_policy (unit metric_name : String) (pts : List DataPoint)
    (hu : unit ≠ "%") (hne : pts ≠ []) :
    resampled_series pts ≠ [] ∧
    y_axis_bounds unit metric_name pts =
      specGenericAxisBounds
        (((resampled_series pts).map (·.2)).min?.getD 0)
        (((resampled_series pts).map (·.2)).max?.getD 0) := by
  have hrs : resampled_series pts ≠ [] := by
    rw [resampled_series]
    exact resample_points_ne_nil hne (resample_rule_pos _)
  refine ⟨hrs, ?_⟩
  rw [y_axis_bounds, if_neg hu]
  have hie : (resampled_series pts).isEmpty = false := by
    cases hrsv : resampled_series pts with
    | nil => exact absurd hrsv hrs
    | cons x xs => rfl
  dsimp only
  simp only [hie, Bool.not_false, if_true]
  rfl

theorem C7_witness :
    (resampled_series constantFiveSeries ≠ [] ∧
      y_axis_bounds "MB" "Disk IO" constantFiveSeries =
        specGenericAxisBounds
          (((resampled_series constantFiveSeries).map (·.2)).min?.getD 0)
          (((resampled_series constantFiveSeries).map (·.2)).max?.getD 0)) ∧
    y_axis_bounds "MB" "Disk IO" constantFiveSeries = (9 / 2, 11 / 2) := by
  refine ⟨C7_generic_axis_policy "MB" "Disk IO" constantFiveSeries (by decide) (by decide), ?_⟩
  have heval : resampled_series constantFiveSeries = [(0, 5), (7200000, 5)] := by
    norm_num [resampled_series, resample_points, resample_rule_ms, date_range_days,
      tsMin, tsMax, msPerDay, msPerHour, constantFiveSeries, valsMean, valuesOf,
      List.filterMap, List.range, List.filter, List.min?, List.max?]
  rw [(C7_generic_axis_policy "MB" "Disk IO" constantFiveSeries (by decide) (by decide)).2,
    heval]
  norm_num [specGenericAxisBounds, List.min?, List.max?, List.foldl]

/-! ## Quantile lemmas -/

theorem sorted_getD_le {s : List ℚ} (hs : s.Sorted (· ≤ ·)) {i j : ℕ}
    (hij : i ≤ j) (hj : j < s.length) : s.getD i 0 ≤ s.getD j 0 := by
  have hi : i < s.length := Nat.lt_of_le_of_lt hij hj
  rw [List.getD_eq_getElem s 0 hi, List.getD_eq_getElem s 0 hj]
  have h := hs.rel_get_of_le (a := ⟨i, hi⟩) (b := ⟨j, hj⟩) (by exact hij)
  simpa using h

theorem getD_succ_self_le {s : List ℚ} (hs : s.Sorted (· ≤ ·)) {i : ℕ}
    (hin : i < s.length) : s.getD i 0 ≤ s.getD (i + 1) (s.getD i 0) := by
  by_cases h : i + 1 < s.length
  · have heq : s.getD (i + 1) (s.getD i 0) = s.getD (i + 1) 0 := by
      rw [List.getD_eq_getElem s _ h, List.getD_eq_getElem s _ h]
    rw [heq]
    exact sorted_getD_le hs (Nat.le_succ i) h
  · exact le_of_eq
      (List.getD_eq_default s (s.getD i 0) (show s.length ≤ i + 1 by omega)).symm

/-- Monotonicity of the interpolation step of the quantile: moving the
interpolation position right within a sorted list never decreases the
result. -/
theorem quantile_interp_mono {s : List ℚ} (hs : s.Sorted (· ≤ ·))
    {i j : ℕ} {x y : ℚ} (hjn : j < s.length) (hij : i ≤ j)
    (_hxi : (i : ℚ) ≤ x) (hxi1 : x < (i : ℚ) + 1) (hyj : (j : ℚ) ≤ y)
    (hxy : x ≤ y) :
    s.getD i 0 + (x - (i : ℚ)) * (s.getD (i + 1) (s.getD i 0) - s.getD i 0) ≤
      s.getD j 0 + (y - (j : ℚ)) * (s.getD (j + 1) (s.getD j 0) - s.getD j 0) := by
  have hin : i < s.length := Nat.lt_of_le_of_lt hij hjn
  have hAB := getD_succ_self_le hs hin
  have hA'B' := getD_succ_self_le hs hjn
  rcases Nat.eq_or_lt_of_le hij with heq | hlt
  · subst heq
    have h1 : (0 : ℚ) ≤ s.getD i (0 : ℚ) + (s.getD (i + 1) (s.getD i 0) - s.getD i 0)
        - s.getD i 0 := by linarith
    have h2 : x - (i : ℚ) ≤ y - (i : ℚ) := by linarith
    have h3 := mul_le_mul_of_nonneg_right h2 (by linarith : (0 : ℚ) ≤
      s.getD (i + 1) (s.getD i 0) - s.getD i 0)
    linarith
  · have hi1n : i + 1 ≤ j := hlt
    have hi1lt : i + 1 < s.length := Nat.lt_of_le_of_lt hi1n hjn
    have hBi : s.getD (i + 1) (s.getD i 0) = s.getD (i + 1) 0 := by
      rw [List.getD_eq_getElem s _ hi1lt, List.getD_eq_getElem s _ hi1lt]
    have hBA' : s.getD (i + 1) 0 ≤ s.getD j 0 := sorted_getD_le hs hi1n hjn
    have hfrac1 : x - (i : ℚ) ≤ 1 := by linarith
    have hstep1 : s.getD i 0 + (x - (i : ℚ)) *
        (s.getD (i + 1) (s.getD i 0) - s.getD i 0) ≤ s.getD (i + 1) (s.getD i 0) := by
      have := mul_le_mul_of_nonneg_right hfrac1
        (by linarith : (0 : ℚ) ≤ s.getD (i + 1) (s.getD i 0) - s.getD i 0)
      linarith
    have hstep3 : s.getD j 0 ≤ s.getD j 0 + (y - (j : ℚ)) *
        (s.getD (j + 1) (s.getD j 0) - s.getD j 0) := by
      have := mul_nonneg (by linarith : (0 : ℚ) ≤ y - (j : ℚ))
        (by linarith : (0 : ℚ) ≤ s.getD (j + 1) (s.getD j 0) - s.getD j 0)
      linarith
    calc s.getD i 0 + (x - (i : ℚ)) * (s.getD (i + 1) (s.getD i 0) - s.getD i 0)
        ≤ s.getD (i + 1) (s.getD i 0) := hstep1
      _ = s.getD (i + 1) 0 := hBi
      _ ≤ s.getD j 0 := hBA'
      _ ≤ s.getD j 0 + (y - (j : ℚ)) *
            (s.getD (j + 1) (s.getD j 0) - s.getD j 0) := hstep3

theorem toNat_floor_cast_le {x : ℚ} (hx : 0 ≤ x) : ((⌊x⌋.toNat : ℕ) : ℚ) ≤ x := by
  have h2 : ((⌊x⌋.toNat : ℕ) : ℤ) = ⌊x⌋ := Int.toNat_of_nonneg (Int.floor_nonneg.mpr hx)
  have h1 : ((⌊x⌋ : ℤ) : ℚ) ≤ x := Int.floor_le x
  rw [show (((⌊x⌋.toNat : ℕ) : ℚ)) = (((⌊x⌋.toNat : ℕ) : ℤ) : ℚ) by push_cast; ring, h2]
  exact h1

theorem lt_toNat_floor_add_one {x : ℚ} (hx : 0 ≤ x) : x < ((⌊x⌋.toNat : ℕ) : ℚ) + 1 := by
  have h2 : ((⌊x⌋.toNat : ℕ) : ℤ) = ⌊x⌋ := Int.toNat_of_nonneg (Int.floor_nonneg.mpr hx)
  have h1 : x < ((⌊x⌋ : ℤ) : ℚ) + 1 := Int.lt_floor_add_one x
  rw [show (((⌊x⌋.toNat : ℕ) : ℚ)) = (((⌊x⌋.toNat : ℕ) : ℤ) : ℚ) by push_cast; ring, h2]
  exact h1

theorem toNat_floor_lt_of_le {x : ℚ} {n : ℕ} (hx : 0 ≤ x) (hxn : x ≤ (n : ℚ) - 1) :
    ⌊x⌋.toNat < n := by
  have h1 := toNat_floor_cast_le hx
  have h3 : ((⌊x⌋.toNat : ℕ) : ℚ) + 1 ≤ (n : ℚ) := by linarith
  exact_mod_cast h3

/-- Monotonicity of the linear-interpolation quantile on a sorted list. -/
theorem quantileSorted_mono {s : List ℚ} (hs : s.Sorted (· ≤ ·)) (hne : s ≠ [])
    {p q : ℚ} (hp0 : 0 ≤ p) (hpq : p ≤ q) (hq1 : q ≤ 1) :
    quantileSorted s p ≤ quantileSorted s q := by
  have hn : 1 ≤ s.length := List.length_pos.mpr hne
  have hnQ : (0 : ℚ) ≤ (s.length : ℚ) - 1 := by
    have : (1 : ℚ) ≤ (s.length : ℚ) := by exact_mod_cast hn
    linarith
  have hq0 : 0 ≤ q := le_trans hp0 hpq
  have hx0 : 0 ≤ p * ((s.length : ℚ) - 1) := mul_nonneg hp0 hnQ
  have hy0 : 0 ≤ q * ((s.length : ℚ) - 1) := mul_nonneg hq0 hnQ
  have hxy : p * ((s.length : ℚ) - 1) ≤ q * ((s.length : ℚ) - 1) :=
    mul_le_mul_of_nonneg_right hpq hnQ
  have hy1 : q * ((s.length : ℚ) - 1) ≤ (s.length : ℚ) - 1 := by
    have := mul_le_mul_of_nonneg_right hq1 hnQ
    linarith
  rw [quantileSorted, quantileSorted]
  exact quantile_interp_mono hs
    (toNat_floor_lt_of_le hy0 hy1)
    (Int.toNat_le_toNat (Int.floor_le_floor hxy))
    (toNat_floor_cast_le hx0)
    (lt_toNat_floor_add_one hx0)
    (toNat_floor_cast_le hy0)
    hxy

theorem sortVals_sorted (l : List ℚ) : (sortVals l).Sorted (· ≤ ·) :=
  List.sorted_insertionSort _ l

theorem sortVals_perm (l : List ℚ) : (sortVals l).Perm l :=
  List.perm_insertionSort _ l

theorem sortVals_ne_nil {l : List ℚ} (hl : l ≠ []) : sortVals l ≠ [] := by
  intro h
  have hperm := sortVals_perm l
  rw [h] at hperm
  exact hl hperm.symm.eq_nil

/-- Monotonicity of the quantile of a value list in the probability. -/
theorem quantile_mono (l : List ℚ) (hl : l ≠ []) {p q : ℚ}
    (hp0 : 0 ≤ p) (hpq : p ≤ q) (hq1 : q ≤ 1) : quantile l p ≤ quantile l q :=
  quantileSorted_mono (sortVals_sorted l) (sortVals_ne_nil hl) hp0 hpq hq1

theorem quantileSorted_zero (s : List ℚ) : quantileSorted s 0 = s.getD 0 0 := by
  rw [quantileSorted]
  norm_num

theorem quantileSorted_one {s : List ℚ} (hne : s ≠ []) :
    quantileSorted s 1 = s.getD (s.length - 1) 0 := by
  have hn : 1 ≤ s.length := List.length_pos.mpr hne
  rw [quantileSorted]
  have hcast : (s.length : ℚ) - 1 = ((s.length - 1 : ℕ) : ℚ) := by
    rw [Nat.cast_sub hn, Nat.cast_one]
  rw [one_mul, hcast, Int.floor_natCast, Int.toNat_natCast]
  ring

/-- The head of the sorted value list is the minimum of the values. -/
theorem sortVals_head_eq_min {l : List ℚ} (hl : l ≠ []) :
    (sortVals l).getD 0 0 = l.min?.getD 0 := by
  have hsne : sortVals l ≠ [] := sortVals_ne_nil hl
  have hperm := sortVals_perm l
  have hsorted := sortVals_sorted l
  obtain ⟨m, hm⟩ := list_min?_isSome (α := ℚ) hl
  obtain ⟨hm_mem, hm_le⟩ := list_min?_spec hm
  rw [hm, Option.getD_some]
  have h0 : 0 < (sortVals l).length := List.length_pos.mpr hsne
  have hhead_mem : (sortVals l).getD 0 0 ∈ sortVals l := by
    rw [List.getD_eq_getElem _ _ h0]
    exact List.getElem_mem h0
  have h1 : m ≤ (sortVals l).getD 0 0 := hm_le _ (hperm.mem_iff.mp hhead_mem)
  have hm_in_s : m ∈ sortVals l := hperm.mem_iff.mpr hm_mem
  obtain ⟨k, hk⟩ := List.get_of_mem hm_in_s
  have h2 : (sortVals l).getD 0 0 ≤ m := by
    have hle := sorted_getD_le hsorted (Nat.zero_le k.1) k.isLt
    rw [List.getD_eq_getElem _ _ k.isLt] at hle
    rw [← hk]
    simpa using hle
  linarith

/-- The last entry of the sorted value list is the maximum of the values. -/
theorem sortVals_last_eq_max {l : List ℚ} (hl : l ≠ []) :
    (sortVals l).getD ((sortVals l).length - 1) 0 = l.max?.getD 0 := by
  have hsne : sortVals l ≠ [] := sortVals_ne_nil hl
  have hperm := sortVals_perm l
  have hsorted := sortVals_sorted l
  obtain ⟨m, hm⟩ := list_max?_isSome (α := ℚ) hl
  obtain ⟨hm_mem, hm_le⟩ := list_max?_spec hm
  rw [hm, Option.getD_some]
  have h0 : (sortVals l).length - 1 < (sortVals l).length := by
    have := List.length_pos.mpr hsne
    omega
  have hlast_mem : (sortVals l).getD ((sortVals l).length - 1) 0 ∈ sortVals l := by
    rw [List.getD_eq_getElem _ _ h0]
    exact List.getElem_mem h0
  have h1 : (sortVals l).getD ((sortVals l).length - 1) 0 ≤ m :=
    hm_le _ (hperm.mem_iff.mp hlast_mem)
  have hm_in_s : m ∈ sortVals l := hperm.mem_iff.mpr hm_mem
  obtain ⟨k, hk⟩ := List.get_of_mem hm_in_s
  have h2 : m ≤ (sortVals l).getD ((sortVals l).length - 1) 0 := by
    have hle := sorted_getD_le hsorted (show k.1 ≤ (sortVals l).length - 1 by
      have := k.isLt; omega) h0
    rw [List.getD_eq_getElem _ _ k.isLt] at hle
    rw [← hk]
    simpa using hle
  linarith

/-- `quantile` at 0 is the minimum of the values. -/
theorem quantile_zero_eq_min {l : List ℚ} (hl : l ≠ []) :
    quantile l 0 = l.min?.getD 0 := by
  rw [quantile, quantileSorted_zero, sortVals_head_eq_min hl]

/-- `quantile` at 1 is the maximum of the values. -/
theorem quantile_one_eq_max {l : List ℚ} (hl : l ≠ []) :
    quantile l 1 = l.max?.getD 0 := by
  rw [quantile, quantileSorted_one (sortVals_ne_nil hl), sortVals_last_eq_max hl]

/-- Claim C1: the statistics computed by `calculate_statistics` on a
non-empty series satisfy
`min ≤ p10 ≤ p25 ≤ median ≤ p75 ≤ p90 ≤ p95 ≤ p99 ≤ max`, each
percentile being the linear-interpolation quantile at `p/100`. -/
theorem C1_percentile_ordering (pts : List DataPoint) (st : StatsSummary)
    (h : calculate_statistics pts = some st) :
    st.min ≤ st.percentile_10 ∧ st.percentile_10 ≤ st.percentile_25 ∧
    st.percentile_25 ≤ st.median ∧ st.median ≤ st.percentile_75 ∧
    st.percentile_75 ≤ st.percentile_90 ∧ st.percentile_90 ≤ st.percentile_95 ∧
    st.percentile_95 ≤ st.percentile_99 ∧ st.percentile_99 ≤ st.max := by
  rw [calculate_statistics] at h
  by_cases hie : pts.isEmpty
  · rw [if_pos hie] at h
    exact absurd h (by simp)
  · rw [if_neg hie] at h
    rw [Option.some.injEq] at h
    subst h
    have hne : pts ≠ [] := by
      cases pts with
      | nil => exact absurd rfl hie
      | cons x xs => simp
    have hvne : valuesOf pts ≠ [] := by
      rw [valuesOf]
      simpa using hne
    dsimp only
    have hmin : valMin pts = quantile (valuesOf pts) 0 :=
      (quantile_zero_eq_min hvne).symm
    have hmax : valMax pts = quantile (valuesOf pts) 1 :=
      (quantile_one_eq_max hvne).symm
    rw [hmin, hmax]
    refine ⟨?_, ?_, ?_, ?_, ?_, ?_, ?_, ?_⟩ <;>
      exact quantile_mono _ hvne (by norm_num) (by norm_num) (by norm_num)

/-- Evaluation of the statistics on `twoPointSeries`. -/
theorem twoPoint_eval : calculate_statistics twoPointSeries = some twoPointStats := by
  norm_num [calculate_statistics, twoPointSeries, twoPointStats, valuesOf, valMin,
    valMax, valsMean, quantile, quantileSorted, sortVals, List.insertionSort,
    List.orderedInsert, List.min?, List.max?, List.foldl, StatsSummary.mk.injEq]

theorem C1_witness :
    twoPointStats.min ≤ twoPointStats.percentile_10 ∧
    twoPointStats.percentile_10 ≤ twoPointStats.percentile_25 ∧
    twoPointStats.percentile_25 ≤ twoPointStats.median ∧
    twoPointStats.median ≤ twoPointStats.percentile_75 ∧
    twoPointStats.percentile_75 ≤ twoPointStats.percentile_90 ∧
    twoPointStats.percentile_90 ≤ twoPointStats.percentile_95 ∧
    twoPointStats.percentile_95 ≤ twoPointStats.percentile_99 ∧
    twoPointStats.percentile_99 ≤ twoPointStats.max :=
  C1_percentile_ordering twoPointSeries twoPointStats twoPoint_eval

/-- The quantile of a constant value list is that constant, at any
probability in `[0,1]`. -/
theorem quantileSorted_const {s : List ℚ} {m : ℚ} (hne : s ≠ [])
    (hc : ∀ x ∈ s, x = m) {p : ℚ} (hp0 : 0 ≤ p) (hp1 : p ≤ 1) :
    quantileSorted s p = m := by
  have hn : 1 ≤ s.length := List.length_pos.mpr hne
  have hnQ : (0 : ℚ) ≤ (s.length : ℚ) - 1 := by
    have : (1 : ℚ) ≤ (s.length : ℚ) := by exact_mod_cast hn
    linarith
  have hx0 : 0 ≤ p * ((s.length : ℚ) - 1) := mul_nonneg hp0 hnQ
  have hx1 : p * ((s.length : ℚ) - 1) ≤ (s.length : ℚ) - 1 := by
    have := mul_le_mul_of_nonneg_right hp1 hnQ
    linarith
  have hin : ⌊p * ((s.length : ℚ) - 1)⌋.toNat < s.length :=
    toNat_floor_lt_of_le hx0 hx1
  rw [quantileSorted]
  have ha : s.getD (⌊p * ((s.length : ℚ) - 1)⌋.toNat) 0 = m := by
    rw [List.getD_eq_getElem _ _ hin]
    exact hc _ (List.getElem_mem hin)
  by_cases hb : ⌊p * ((s.length : ℚ) - 1)⌋.toNat + 1 < s.length
  · have hbv : s.getD (⌊p * ((s.length : ℚ) - 1)⌋.toNat + 1)
        (s.getD (⌊p * ((s.length : ℚ) - 1)⌋.toNat) 0) = m := by
      rw [List.getD_eq_getElem _ _ hb]
      exact hc _ (List.getElem_mem hb)
    rw [hbv, ha]
    ring
  · have hbv : s.getD (⌊p * ((s.length : ℚ) - 1)⌋.toNat + 1)
        (s.getD (⌊p * ((s.length : ℚ) - 1)⌋.toNat) 0) =
        s.getD (⌊p * ((s.length : ℚ) - 1)⌋.toNat) 0 :=
      List.getD_eq_default s _ (by omega)
    rw [hbv, ha]
    ring

theorem quantile_const {l : List ℚ} {m : ℚ} (hl : l ≠ []) (hc : ∀ x ∈ l, x = m)
    {p : ℚ} (hp0 : 0 ≤ p) (hp1 : p ≤ 1) : quantile l p = m :=
  quantileSorted_const (sortVals_ne_nil hl)
    (fun x hx => hc x ((sortVals_perm l).mem_iff.mp hx)) hp0 hp1

/-- Claim C4: the warning and critical lists are exactly the independent
`value >= threshold` filters (so one point can sit in both), the IQR
outlier list is always exactly the points outside
`[Q1 - 1.5*IQR, Q3 + 1.5*IQR]` regardless of thresholds, and for a
zero-variance series it is empty. -/
theorem C4_anomaly_filters (pts : List DataPoint)
    (tw tc : Option ℚ) (a : AnomalySet)
    (h : detect_anomalies pts tw tc = some a) :
    (∀ w, tw = some w → a.warning = pts.filter (fun p => w ≤ p.value)) ∧
    (∀ c, tc = some c → a.critical = pts.filter (fun p => c ≤ p.value)) ∧
    a.outliers = pts.filter (fun p =>
      p.value < quantile (valuesOf pts) (25 / 100) -
        3 / 2 * (quantile (valuesOf pts) (75 / 100) - quantile (valuesOf pts) (25 / 100)) ∨
      quantile (valuesOf pts) (75 / 100) +
        3 / 2 * (quantile (valuesOf pts) (75 / 100) - quantile (valuesOf pts) (25 / 100))
        < p.value) ∧
    ((∃ m, ∀ q ∈ pts, q.value = m) → a.outliers = []) := by
  rw [detect_anomalies.eq_def] at h
  by_cases hie : pts.isEmpty
  · rw [if_pos hie] at h
    exact absurd h (by simp)
  · rw [if_neg hie] at h
    rw [Option.some.injEq] at h
    subst h
    have hne : pts ≠ [] := by
      cases pts with
      | nil => exact absurd rfl hie
      | cons x xs => simp
    have hvne : valuesOf pts ≠ [] := by
      rw [valuesOf]
      simpa using hne
    refine ⟨?_, ?_, rfl, ?_⟩
    · rintro w rfl
      rfl
    · rintro c rfl
      rfl
    · rintro ⟨m, hm⟩
      dsimp only
      rw [List.filter_eq_nil_iff]
      intro q hq
      have hcv : ∀ x ∈ valuesOf pts, x = m := by
        intro x hx
        obtain ⟨r, hr, hrx⟩ := List.mem_map.mp hx
        rw [← hrx]
        exact hm r hr
      have h25 : quantile (valuesOf pts) (25 / 100) = m :=
        quantile_const hvne hcv (by norm_num) (by norm_num)
      have h75 : quantile (valuesOf pts) (75 / 100) = m :=
        quantile_const hvne hcv (by norm_num) (by norm_num)
      simp only [h25, h75, decide_eq_true_eq, hm q hq]
      intro hcon
      rcases hcon with hlt | hgt
      · linarith
      · linarith

/-- Evaluation of the anomaly detection on `constantSeries`. -/
theorem constSeries_eval :
    detect_anomalies constantSeries (some 40) (some 42) = some constAnomalies := by
  norm_num [detect_anomalies, constantSeries, constAnomalies, valuesOf, quantile,
    quantileSorted, sortVals, List.insertionSort, List.orderedInsert, List.filter,
    AnomalySet.mk.injEq]

theorem C4_witness :
    detect_anomalies constantSeries (some 40) (some 42) = some constAnomalies ∧
    constAnomalies.warning = constantSeries.filter (fun p => (40 : ℚ) ≤ p.value) ∧
    constAnomalies.critical = constantSeries.filter (fun p => (42 : ℚ) ≤ p.value) ∧
    constAnomalies.outliers = [] ∧
    (⟨0, 42⟩ : DataPoint) ∈ constAnomalies.warning ∧
    (⟨0, 42⟩ : DataPoint) ∈ constAnomalies.critical :=
  ⟨constSeries_eval,
   (C4_anomaly_filters constantSeries (some 40) (some 42) constAnomalies
     constSeries_eval).1 40 rfl,
   (C4_anomaly_filters constantSeries (some 40) (some 42) constAnomalies
     constSeries_eval).2.1 42 rfl,
   (C4_anomaly_filters constantSeries (some 40) (some 42) constAnomalies
     constSeries_eval).2.2.2 ⟨42, by decide⟩,
   by decide, by decide⟩
